import Mathlib

/-!
Shallow embedding of the stream-adapter library in `src/src/libstd/io/util.rs`.

A `Reader` over a state type `σ` is modelled by its `read` operation:
given the current state and the caller's buffer (a list of bytes, here
natural numbers), it returns the updated state, the updated buffer
contents and either a byte count or an `IoError`.  A `Writer` is modelled
by its `write` and `flush` operations.  Mutation of `&mut self` and of
the buffer slice is made explicit by returning the new values.

Each adapter from the source file (`LimitReader`, `NullWriter`,
`ZeroReader`, `NullReader`, `MultiWriter`, `ChainedReader`, `TeeReader`,
`copy`) is translated definition by definition.
-/

namespace IoUtil

/-- Discriminated kind carried by an I/O error; `EndOfFile` is the
distinguished end-of-stream kind (`io::EndOfFile`).  All other kinds are
abstracted by a numeric code. -/
inductive IoErrorKind where
  | EndOfFile : IoErrorKind
  | otherKind (code : Nat) : IoErrorKind
deriving DecidableEq, Repr

/-- An I/O error.  The adapters inspect only the `kind` field; `detail`
stands for the remaining payload and distinguishes distinct errors. -/
structure IoError where
  kind : IoErrorKind
  detail : Nat
deriving DecidableEq, Repr

/-- Modelled from the spec: `io::standard_error` (defined outside this
file) builds an error of the given kind with a fixed payload. -/
def standardError (k : IoErrorKind) : IoError := ⟨k, 0⟩

/-- Result of an I/O operation, as `io::IoResult`. -/
inductive IoResult (α : Type) where
  | ok (val : α) : IoResult α
  | err (e : IoError) : IoResult α
deriving DecidableEq, Repr

/-- Rust `Result::and` as used by `MultiWriter`: an `ok` is replaced by
the second result, an `err` is kept (so the first error wins). -/
def IoResult.and (a : IoResult Unit) (b : IoResult Unit) : IoResult Unit :=
  match a with
  | .ok _ => b
  | .err e => .err e

/-- A `Reader` implementation over state `σ`: `read` takes the state and
the buffer and yields the new state, the new buffer contents and the
number of bytes placed at the front of the buffer, or an error. -/
structure Reader (σ : Type) where
  read : σ → List Nat → σ × List Nat × IoResult Nat

/-- A `Writer` implementation over state `σ`. -/
structure Writer (σ : Type) where
  write : σ → List Nat → σ × IoResult Unit
  flush : σ → σ × IoResult Unit

/-- Wraps a `Reader`, limiting the number of bytes that can be read from
it (state of `struct LimitReader`). -/
structure LimitReader (σ : Type) where
  limit : Nat
  inner : σ
deriving DecidableEq, Repr

/-- `LimitReader::new`. -/
def LimitReader.new (r : σ) (limit : Nat) : LimitReader σ := ⟨limit, r⟩

/-- `LimitReader::read`: a zero quota fails with `EndOfFile` at once;
otherwise the inner reader receives the first `min limit buf.length`
bytes of the buffer, and on success the quota shrinks by the count the
inner reader returned. -/
def LimitReader.read (R : Reader σ) (l : LimitReader σ) (buf : List Nat) :
    LimitReader σ × List Nat × IoResult Nat :=
  if l.limit = 0 then (l, buf, .err (standardError .EndOfFile))
  else
    let len := min l.limit buf.length
    match R.read l.inner (buf.take len) with
    | (inner, bufp, .ok n) => (⟨l.limit - n, inner⟩, bufp ++ buf.drop len, .ok n)
    | (inner, bufp, .err e) => (⟨l.limit, inner⟩, bufp ++ buf.drop len, .err e)

/-- `NullWriter`: ignores all writes; `flush` is the trait default. -/
def NullWriter : Writer Unit :=
  ⟨fun s _ => (s, .ok ()), fun s => (s, .ok ())⟩

/-- `ZeroReader`: fills the whole buffer with zero bytes and reports the
full buffer length. -/
def ZeroReader : Reader Unit :=
  ⟨fun s buf => (s, List.replicate buf.length 0, .ok buf.length)⟩

/-- `NullReader`: always fails with `EndOfFile` and ignores the buffer. -/
def NullReader : Reader Unit :=
  ⟨fun s buf => (s, buf, .err (standardError .EndOfFile))⟩

/-- A `Writer` which multiplexes writes to a set of writers
(state of `struct MultiWriter`); all inner writers share the state type
`σ` and the implementation `W`. -/
structure MultiWriter (σ : Type) where
  writers : List σ
deriving DecidableEq, Repr

/-- Loop body of `MultiWriter::write`: `ret = ret.and(writer.write(buf))`
over every writer, threading each writer's updated state. -/
def MultiWriter.writeLoop (W : Writer σ) (buf : List Nat) :
    List σ → IoResult Unit → List σ × IoResult Unit
  | [], ret => ([], ret)
  | w :: ws, ret =>
    let p := W.write w buf
    let q := MultiWriter.writeLoop W buf ws (ret.and p.2)
    (p.1 :: q.1, q.2)

/-- `MultiWriter::write`. -/
def MultiWriter.write (W : Writer σ) (m : MultiWriter σ) (buf : List Nat) :
    MultiWriter σ × IoResult Unit :=
  let q := MultiWriter.writeLoop W buf m.writers (.ok ())
  (⟨q.1⟩, q.2)

/-- Loop body of `MultiWriter::flush`: `ret = ret.and(writer.flush())`
over every writer. -/
def MultiWriter.flushLoop (W : Writer σ) :
    List σ → IoResult Unit → List σ × IoResult Unit
  | [], ret => ([], ret)
  | w :: ws, ret =>
    let p := W.flush w
    let q := MultiWriter.flushLoop W ws (ret.and p.2)
    (p.1 :: q.1, q.2)

/-- `MultiWriter::flush`. -/
def MultiWriter.flush (W : Writer σ) (m : MultiWriter σ) :
    MultiWriter σ × IoResult Unit :=
  let q := MultiWriter.flushLoop W m.writers (.ok ())
  (⟨q.1⟩, q.2)

/-- A `Reader` which chains input from multiple readers (state of
`struct ChainedReader`); the lazy iterator of pending readers is
modelled by the list `readers`, whose `next` pops the head. -/
structure ChainedReader (σ : Type) where
  readers : List σ
  cur_reader : Option σ
deriving DecidableEq, Repr

/-- `ChainedReader::new`: immediately pulls the first reader from the
iterator into `cur_reader`. -/
def ChainedReader.new (readers : List σ) : ChainedReader σ :=
  match readers with
  | [] => ⟨[], none⟩
  | r :: rest => ⟨rest, some r⟩

/-- The `loop` of `ChainedReader::read`, recursing over the iterator of
pending readers.  On `Ok(len)` it returns at once; on any failure it
first advances `cur_reader` to `readers.next()`, then returns the error
if it was not `EndOfFile` and otherwise retries. -/
def ChainedReader.readLoop (R : Reader σ) (rs : List σ) (cur : Option σ)
    (buf : List Nat) : ChainedReader σ × List Nat × IoResult Nat :=
  match cur with
  | none => (⟨rs, none⟩, buf, .err (standardError .EndOfFile))
  | some r =>
    match R.read r buf with
    | (rp, bufp, .ok len) => (⟨rs, some rp⟩, bufp, .ok len)
    | (_, bufp, .err e) =>
      if e.kind = .EndOfFile then
        match rs with
        | [] => (⟨[], none⟩, bufp, .err (standardError .EndOfFile))
        | r2 :: rest => ChainedReader.readLoop R rest (some r2) bufp
      else
        match rs with
        | [] => (⟨[], none⟩, bufp, .err e)
        | r2 :: rest => (⟨rest, some r2⟩, bufp, .err e)

/-- `ChainedReader::read`. -/
def ChainedReader.read (R : Reader σ) (c : ChainedReader σ) (buf : List Nat) :
    ChainedReader σ × List Nat × IoResult Nat :=
  ChainedReader.readLoop R c.readers c.cur_reader buf

/-- The `Reader` instance of a `ChainedReader` over inner readers `R`. -/
def ChainedReader.asReader (R : Reader σ) : Reader (ChainedReader σ) :=
  ⟨fun c buf => ChainedReader.read R c buf⟩

/-- A `Reader` which forwards input from another reader, passing it
along to a writer as well (state of `struct TeeReader`). -/
structure TeeReader (ρ ω : Type) where
  reader : ρ
  writer : ω
deriving DecidableEq, Repr

/-- `TeeReader::read`: delegate to the inner reader; on `Ok(len)` write
the first `len` bytes of the (updated) buffer to the inner writer, and
replace a successful count by the writer's error if the write fails. -/
def TeeReader.read (R : Reader ρ) (W : Writer ω) (t : TeeReader ρ ω)
    (buf : List Nat) : TeeReader ρ ω × List Nat × IoResult Nat :=
  match R.read t.reader buf with
  | (r, bufp, .ok len) =>
    match W.write t.writer (bufp.take len) with
    | (w, .ok _) => (⟨r, w⟩, bufp, .ok len)
    | (w, .err e) => (⟨r, w⟩, bufp, .err e)
  | (r, bufp, .err e) => (⟨r, t.writer⟩, bufp, .err e)

/-- The loop of `copy`, with explicit fuel (the Rust loop has no bound;
`none` means the fuel ran out before the copy finished).  The one buffer
is reused, so each iteration reads into the buffer left by the previous
one and writes its first `len` bytes. -/
def copyLoop (R : Reader ρ) (W : Writer ω) :
    Nat → ρ → ω → List Nat → Option (ρ × ω × IoResult Unit)
  | 0, _, _, _ => none
  | fuel + 1, r, w, buf =>
    match R.read r buf with
    | (rp, bufp, .ok len) =>
      match W.write w (bufp.take len) with
      | (wp, .ok _) => copyLoop R W fuel rp wp bufp
      | (wp, .err e) => some (rp, wp, .err e)
    | (rp, _, .err e) =>
      if e.kind = .EndOfFile then some (rp, w, .ok ())
      else some (rp, w, .err e)

/-- Modelled from the spec: the shared default buffer size constant
`DEFAULT_BUF_SIZE` (defined outside this file); the spec fixes only that
it is a few kilobytes and that the exact size is a tuning constant, not
a correctness concern. -/
def DEFAULT_BUF_SIZE : Nat := 4096

/-- `copy`: drives all data from a reader to a writer through one
fixed-size zeroed buffer. -/
def copy (R : Reader ρ) (W : Writer ω) (fuel : Nat) (r : ρ) (w : ω) :
    Option (ρ × ω × IoResult Unit) :=
  copyLoop R W fuel r w (List.replicate DEFAULT_BUF_SIZE 0)

/-- Modelled from the spec: a Source yielding a fixed byte sequence (the
test suite's `MemReader`, defined outside this file).  Each read fills
the front of the buffer with the next pending bytes and returns their
count; once the sequence is exhausted every read fails with
`EndOfFile`. -/
def MemReader : Reader (List Nat) :=
  ⟨fun cs buf =>
    if cs.isEmpty then (cs, buf, .err (standardError .EndOfFile))
    else
      let n := min buf.length cs.length
      (cs.drop n, cs.take n ++ buf.drop n, .ok n)⟩

/-- Modelled from the spec: a capturing Sink (the test suite's
`MemWriter`, defined outside this file).  `write` appends the bytes to
the captured list and succeeds; `flush` succeeds. -/
def MemWriter : Writer (List Nat) :=
  ⟨fun cs buf => (cs ++ buf, .ok ()), fun cs => (cs, .ok ())⟩

/-- A Source driven by an explicit script of read outcomes; each read
pops the next outcome and leaves the buffer unchanged (an empty script
reads as end of stream).  Used to instantiate theorems quantified over
an arbitrary inner Source at concrete inputs. -/
def ScriptReader : Reader (List (IoResult Nat)) :=
  ⟨fun s buf =>
    match s with
    | [] => ([], buf, .err (standardError .EndOfFile))
    | r :: rest => (rest, buf, r)⟩

/-- A Sink driven by an explicit script of outcomes; `write` and `flush`
pop the next outcome (an empty script succeeds).  Used to instantiate
theorems quantified over an arbitrary inner Sink at concrete inputs. -/
def ScriptWriter : Writer (List (IoResult Unit)) :=
  ⟨fun s _ =>
    match s with
    | [] => ([], .ok ())
    | r :: rest => (rest, r),
  fun s =>
    match s with
    | [] => ([], .ok ())
    | r :: rest => (rest, r)⟩

/-- Spec-level driver: read repeatedly through a fresh zeroed buffer of
size `k`, collecting the bytes of each successful read, until a read
fails; the collected bytes are returned when the failure kind is
`EndOfFile`, and `none` on any other failure or when the fuel runs
out. -/
def readToEnd (R : Reader σ) : Nat → σ → Nat → List Nat → Option (List Nat)
  | 0, _, _, _ => none
  | fuel + 1, s, k, acc =>
    match R.read s (List.replicate k 0) with
    | (sp, bufp, .ok n) => readToEnd R fuel sp k (acc ++ bufp.take n)
    | (_, _, .err e) => if e.kind = .EndOfFile then some acc else none

/-- Follows the spec's words: the first error across a list of results,
else success.  Used to compare `MultiWriter`'s aggregate result with the
spec's description. -/
def firstErrorAcross : List (IoResult Unit) → IoResult Unit
  | [] => .ok ()
  | r :: rs => r.and (firstErrorAcross rs)

/-! Helper lemmas about `IoResult.and` and the aggregate error. -/

theorem IoResult.and_ok_right (r : IoResult Unit) : r.and (.ok ()) = r := by
  cases r with
  | ok v => cases v; rfl
  | err e => rfl

theorem IoResult.and_assoc_law (a b c : IoResult Unit) :
    (a.and b).and c = a.and (b.and c) := by
  cases a with
  | ok v => rfl
  | err e => rfl

theorem firstErrorAcross_ok_iff (rs : List (IoResult Unit)) :
    firstErrorAcross rs = .ok () ↔ ∀ r ∈ rs, r = .ok () := by
  induction rs with
  | nil => simp [firstErrorAcross]
  | cons r rs ih =>
    cases r with
    | ok v =>
      cases v
      simp [firstErrorAcross, IoResult.and, ih]
    | err e =>
      simp [firstErrorAcross, IoResult.and]

/-! Helper lemmas characterising the `MultiWriter` loops. -/

theorem multiWriter_writeLoop_eq (W : Writer σ) (buf : List Nat) :
    ∀ (ws : List σ) (ret : IoResult Unit),
      MultiWriter.writeLoop W buf ws ret
        = (ws.map (fun w => (W.write w buf).1),
           ret.and (firstErrorAcross (ws.map (fun w => (W.write w buf).2)))) := by
  intro ws
  induction ws with
  | nil => intro ret; simp [MultiWriter.writeLoop, firstErrorAcross, IoResult.and_ok_right]
  | cons w ws ih =>
    intro ret
    simp [MultiWriter.writeLoop, ih, firstErrorAcross, IoResult.and_assoc_law]

theorem multiWriter_flushLoop_eq (W : Writer σ) :
    ∀ (ws : List σ) (ret : IoResult Unit),
      MultiWriter.flushLoop W ws ret
        = (ws.map (fun w => (W.flush w).1),
           ret.and (firstErrorAcross (ws.map (fun w => (W.flush w).2)))) := by
  intro ws
  induction ws with
  | nil => intro ret; simp [MultiWriter.flushLoop, firstErrorAcross, IoResult.and_ok_right]
  | cons w ws ih =>
    intro ret
    simp [MultiWriter.flushLoop, ih, firstErrorAcross, IoResult.and_assoc_law]

/-- Claim C2: a `MultiWriter` over any list of inner writers invokes
`write` (resp. `flush`) on every inner writer in construction order even
when an earlier one fails, returns the first error encountered across
the set if any inner call failed and success otherwise; in particular
the call succeeds iff every inner call succeeds. -/
theorem multiWriter_broadcast_spec (W : Writer σ) (m : MultiWriter σ) (buf : List Nat) :
    (MultiWriter.write W m buf).1.writers = m.writers.map (fun w => (W.write w buf).1)
  ∧ (MultiWriter.write W m buf).2
      = firstErrorAcross (m.writers.map (fun w => (W.write w buf).2))
  ∧ ((MultiWriter.write W m buf).2 = .ok ()
      ↔ ∀ w ∈ m.writers, (W.write w buf).2 = .ok ())
  ∧ (MultiWriter.flush W m).1.writers = m.writers.map (fun w => (W.flush w).1)
  ∧ (MultiWriter.flush W m).2
      = firstErrorAcross (m.writers.map (fun w => (W.flush w).2))
  ∧ ((MultiWriter.flush W m).2 = .ok ()
      ↔ ∀ w ∈ m.writers, (W.flush w).2 = .ok ()) := by
  have hw := multiWriter_writeLoop_eq W buf m.writers (.ok ())
  have hf := multiWriter_flushLoop_eq W m.writers (.ok ())
  refine ⟨?_, ?_, ?_, ?_, ?_, ?_⟩
  · simp [MultiWriter.write, hw]
  · simp [MultiWriter.write, hw, IoResult.and]
  · simp [MultiWriter.write, hw, IoResult.and, firstErrorAcross_ok_iff]
  · simp [MultiWriter.flush, hf]
  · simp [MultiWriter.flush, hf, IoResult.and]
  · simp [MultiWriter.flush, hf, IoResult.and, firstErrorAcross_ok_iff]

/-- Claim C5: a `LimitReader` whose remaining quota is `0` fails with
`EndOfFile` on the first read for every inner reader implementation,
every inner state and every buffer; the adapter state and the buffer are
returned unchanged, so the inner reader is not invoked. -/
theorem limit_zero_eof_spec (R : Reader σ) (s : σ) (buf : List Nat) :
    LimitReader.read R ⟨0, s⟩ buf = (⟨0, s⟩, buf, .err (standardError .EndOfFile)) := rfl

/-- Claim C8: `NullReader` always fails with an error of kind
`EndOfFile` and returns the buffer contents unchanged. -/
theorem null_reader_spec (s : Unit) (buf : List Nat) :
    (NullReader.read s buf).2.1 = buf
  ∧ ∃ e, (NullReader.read s buf).2.2 = .err e ∧ e.kind = .EndOfFile :=
  ⟨rfl, standardError .EndOfFile, rfl, rfl⟩

/-- Helper: the quota of a `LimitReader` never increases across a read,
whatever the inner reader does. -/
theorem limitReader_limit_le (R : Reader σ) (st : LimitReader σ) (buf : List Nat) :
    ((LimitReader.read R st buf).1).limit ≤ st.limit := by
  obtain ⟨limit, s⟩ := st
  by_cases h0 : limit = 0
  · subst h0; simp [LimitReader.read]
  · simp only [LimitReader.read, h0, if_false]
    rcases hr : R.read s (buf.take (min limit buf.length)) with ⟨sp, bufp, res⟩
    cases res with
    | ok n => simp [hr]
    | err e => simp [hr]

/-- Claim C6: a `LimitReader` with positive quota hands the inner reader
the first `min quota buf.length` bytes of the buffer; when the inner
read succeeds with `n` bytes the quota shrinks by exactly `n`, the call
returns `n`, and the tail of the buffer beyond the window is preserved;
moreover the quota never increases across any read. -/
theorem limit_positive_read_spec (R : Reader σ) (limit : Nat) (s : σ)
    (buf : List Nat) (sp : σ) (bufp : List Nat) (n : Nat)
    (h0 : 0 < limit)
    (hs : R.read s (buf.take (min limit buf.length)) = (sp, bufp, .ok n)) :
    LimitReader.read R ⟨limit, s⟩ buf
      = (⟨limit - n, sp⟩, bufp ++ buf.drop (min limit buf.length), .ok n)
  ∧ limit - n ≤ limit
  ∧ ∀ (st : LimitReader σ) (buf2 : List Nat),
      ((LimitReader.read R st buf2).1).limit ≤ st.limit := by
  refine ⟨?_, Nat.sub_le _ _, fun st buf2 => limitReader_limit_le R st buf2⟩
  have h0' : ¬ limit = 0 := by omega
  simp only [LimitReader.read, h0', if_false]
  rw [hs]

/-- Claim C6 witness at a concrete inner reader. -/
theorem limit_positive_read_spec_witness :
    LimitReader.read MemReader ⟨2, [5, 6, 7]⟩ [0, 0, 0]
      = (⟨0, [7]⟩, [5, 6, 0], .ok 2)
  ∧ (2 : Nat) - 2 ≤ 2 := by
  have h := limit_positive_read_spec MemReader 2 [5, 6, 7] [0, 0, 0] [7] [5, 6] 2
    (by decide) rfl
  exact ⟨h.1, h.2.1⟩

/-- Claim C9: when the inner reader's read fails, the `LimitReader`'s
remaining quota is unchanged; for a positive quota the error is
propagated unchanged together with the inner reader's buffer effect. -/
theorem limit_error_quota_spec (R : Reader σ) (limit : Nat) (s : σ)
    (buf : List Nat) (sp : σ) (bufp : List Nat) (e : IoError)
    (hs : R.read s (buf.take (min limit buf.length)) = (sp, bufp, .err e)) :
    ((LimitReader.read R ⟨limit, s⟩ buf).1).limit = limit
  ∧ (0 < limit →
      LimitReader.read R ⟨limit, s⟩ buf
        = (⟨limit, sp⟩, bufp ++ buf.drop (min limit buf.length), .err e)) := by
  by_cases h0 : limit = 0
  · subst h0
    exact ⟨rfl, fun h => absurd h (by omega)⟩
  · constructor
    · simp only [LimitReader.read, h0, if_false]
      rw [hs]
    · intro _
      simp only [LimitReader.read, h0, if_false]
      rw [hs]

/-- Claim C9 witness at a concrete failing inner reader. -/
theorem limit_error_quota_spec_witness :
    ((LimitReader.read ScriptReader ⟨1, [IoResult.err ⟨.otherKind 3, 9⟩]⟩ [8]).1).limit = 1
  ∧ LimitReader.read ScriptReader ⟨1, [IoResult.err ⟨.otherKind 3, 9⟩]⟩ [8]
      = (⟨1, []⟩, [8], .err ⟨.otherKind 3, 9⟩) := by
  have h := limit_error_quota_spec ScriptReader 1 [IoResult.err ⟨.otherKind 3, 9⟩]
    [8] [] [8] ⟨.otherKind 3, 9⟩ rfl
  exact ⟨h.1, h.2 (by decide)⟩

/-- Claim C10: when the current reader of a `ChainedReader` returns a
successful zero-byte read, the adapter returns `Ok 0` at once and keeps
the same (updated in place) current reader: it does not advance to the
next producer. -/
theorem chained_zero_byte_spec (R : Reader σ) (rs : List σ) (r : σ)
    (buf : List Nat) (rp : σ) (bufp : List Nat)
    (h : R.read r buf = (rp, bufp, .ok 0)) :
    ChainedReader.read R ⟨rs, some r⟩ buf = (⟨rs, some rp⟩, bufp, .ok 0) := by
  rw [ChainedReader.read, ChainedReader.readLoop.eq_def]
  simp [h]

/-- Claim C10 witness at a concrete scripted reader. -/
theorem chained_zero_byte_spec_witness :
    ChainedReader.read ScriptReader ⟨[[IoResult.ok 5]], some [IoResult.ok 0]⟩ [7]
      = (⟨[[IoResult.ok 5]], some []⟩, [7], .ok 0) :=
  chained_zero_byte_spec ScriptReader [[IoResult.ok 5]] [IoResult.ok 0] [7] [] [7] rfl

/-- Claim C1 counterexample: the current reader of this `ChainedReader`
fails with a non-`EndOfFile` error; the error is propagated, but
afterwards `cur_reader` holds the next producer from the iterator — not
the reader that failed (whose post-read state is `[]`) — so the adapter
did advance. -/
theorem chained_error_cex :
    (ChainedReader.read ScriptReader
        ⟨[[IoResult.ok 1]], some [IoResult.err ⟨.otherKind 7, 5⟩]⟩ [0]).2.2
      = .err ⟨.otherKind 7, 5⟩
  ∧ (ChainedReader.read ScriptReader
        ⟨[[IoResult.ok 1]], some [IoResult.err ⟨.otherKind 7, 5⟩]⟩ [0]).1.cur_reader
      = some [IoResult.ok 1]
  ∧ (ChainedReader.read ScriptReader
        ⟨[[IoResult.ok 1]], some [IoResult.err ⟨.otherKind 7, 5⟩]⟩ [0]).1.cur_reader
      ≠ some [IoResult.err ⟨.otherKind 7, 5⟩]
  ∧ (ChainedReader.read ScriptReader
        ⟨[[IoResult.ok 1]], some [IoResult.err ⟨.otherKind 7, 5⟩]⟩ [0]).1.cur_reader
      ≠ some [] := by
  refine ⟨rfl, rfl, ?_, ?_⟩ <;> decide

/-- Claim C1 as amended: when the current reader of a `ChainedReader`
fails with an error that is not `EndOfFile`, the read call propagates
that error to the caller, but the adapter first advances `cur_reader` to
the iterator's next producer (`none` when the iterator is exhausted);
the failed reader is abandoned. -/
theorem chained_error_propagates_and_advances (R : Reader σ) (rs : List σ)
    (r : σ) (buf : List Nat) (rp : σ) (bufp : List Nat) (e : IoError)
    (h : R.read r buf = (rp, bufp, .err e)) (hk : e.kind ≠ .EndOfFile) :
    ChainedReader.read R ⟨rs, some r⟩ buf = (⟨rs.tail, rs.head?⟩, bufp, .err e) := by
  rw [ChainedReader.read, ChainedReader.readLoop.eq_def]
  simp only [h]
  rw [if_neg hk]
  cases rs <;> rfl

/-- Claim C1 amended witness at a concrete scripted reader. -/
theorem chained_error_propagates_and_advances_witness :
    ChainedReader.read ScriptReader
        ⟨[[IoResult.ok 2]], some [IoResult.err ⟨.otherKind 9, 1⟩]⟩ [3]
      = (⟨[], some [IoResult.ok 2]⟩, [3], .err ⟨.otherKind 9, 1⟩) :=
  chained_error_propagates_and_advances ScriptReader [[IoResult.ok 2]]
    [IoResult.err ⟨.otherKind 9, 1⟩] [3] [] [3] ⟨.otherKind 9, 1⟩ rfl (by decide)

/-- Claim C7: a `TeeReader` delegates to the inner reader; on success
with count `n` it writes exactly the first `n` bytes of the updated
buffer to the inner writer, and a write failure turns the whole read
into that failure while the buffer keeps the `n` read bytes; on inner
reader failure the error is returned and the writer is untouched. -/
theorem tee_read_spec (R : Reader ρ) (W : Writer ω) (r : ρ) (w : ω)
    (buf : List Nat) :
    (∀ rp bufp n wp, R.read r buf = (rp, bufp, .ok n) →
        W.write w (bufp.take n) = (wp, .ok ()) →
        TeeReader.read R W ⟨r, w⟩ buf = (⟨rp, wp⟩, bufp, .ok n))
  ∧ (∀ rp bufp n wp e, R.read r buf = (rp, bufp, .ok n) →
        W.write w (bufp.take n) = (wp, .err e) →
        TeeReader.read R W ⟨r, w⟩ buf = (⟨rp, wp⟩, bufp, .err e))
  ∧ (∀ rp bufp e, R.read r buf = (rp, bufp, .err e) →
        TeeReader.read R W ⟨r, w⟩ buf = (⟨rp, w⟩, bufp, .err e)) := by
  refine ⟨?_, ?_, ?_⟩
  · intro rp bufp n wp h1 h2
    simp [TeeReader.read, h1, h2]
  · intro rp bufp n wp e h1 h2
    simp [TeeReader.read, h1, h2]
  · intro rp bufp e h1
    simp [TeeReader.read, h1]

/-- Claim C7 witness covering the three branches at concrete inner
readers and writers. -/
theorem tee_read_spec_witness :
    TeeReader.read MemReader MemWriter ⟨[1, 2, 3], []⟩ [0, 0]
      = (⟨[3], [1, 2]⟩, [1, 2], .ok 2)
  ∧ TeeReader.read MemReader ScriptWriter
        ⟨[9], [IoResult.err ⟨.otherKind 4, 2⟩]⟩ [0]
      = (⟨[], []⟩, [9], .err ⟨.otherKind 4, 2⟩)
  ∧ TeeReader.read ScriptReader MemWriter
        ⟨[IoResult.err ⟨.otherKind 6, 0⟩], []⟩ [4]
      = (⟨[], []⟩, [4], .err ⟨.otherKind 6, 0⟩) := by
  refine ⟨?_, ?_, ?_⟩
  · exact (tee_read_spec MemReader MemWriter [1, 2, 3] [] [0, 0]).1
      [3] [1, 2] 2 [1, 2] rfl rfl
  · exact (tee_read_spec MemReader ScriptWriter [9]
      [IoResult.err ⟨.otherKind 4, 2⟩] [0]).2.1 [] [9] 1 [] ⟨.otherKind 4, 2⟩ rfl rfl
  · exact (tee_read_spec ScriptReader MemWriter
      [IoResult.err ⟨.otherKind 6, 0⟩] [] [4]).2.2 [] [4] ⟨.otherKind 6, 0⟩ rfl

/-! Helper lemmas: one iteration of the `copy` loop. -/

theorem copyLoop_step_wok (R : Reader ρ) (W : Writer ω) (fuel : Nat)
    (r : ρ) (w : ω) (buf : List Nat) (rp : ρ) (bufp : List Nat) (n : Nat)
    (wp : ω) (u : Unit)
    (h1 : R.read r buf = (rp, bufp, .ok n))
    (h2 : W.write w (bufp.take n) = (wp, .ok u)) :
    copyLoop R W (fuel + 1) r w buf = copyLoop R W fuel rp wp bufp := by
  simp [copyLoop, h1, h2]

theorem copyLoop_step_werr (R : Reader ρ) (W : Writer ω) (fuel : Nat)
    (r : ρ) (w : ω) (buf : List Nat) (rp : ρ) (bufp : List Nat) (n : Nat)
    (wp : ω) (e : IoError)
    (h1 : R.read r buf = (rp, bufp, .ok n))
    (h2 : W.write w (bufp.take n) = (wp, .err e)) :
    copyLoop R W (fuel + 1) r w buf = some (rp, wp, .err e) := by
  simp [copyLoop, h1, h2]

theorem copyLoop_step_eof (R : Reader ρ) (W : Writer ω) (fuel : Nat)
    (r : ρ) (w : ω) (buf : List Nat) (rp : ρ) (bufp : List Nat) (e : IoError)
    (h1 : R.read r buf = (rp, bufp, .err e)) (hk : e.kind = .EndOfFile) :
    copyLoop R W (fuel + 1) r w buf = some (rp, w, .ok ()) := by
  simp [copyLoop, h1, hk]

theorem copyLoop_step_err (R : Reader ρ) (W : Writer ω) (fuel : Nat)
    (r : ρ) (w : ω) (buf : List Nat) (rp : ρ) (bufp : List Nat) (e : IoError)
    (h1 : R.read r buf = (rp, bufp, .err e)) (hk : e.kind ≠ .EndOfFile) :
    copyLoop R W (fuel + 1) r w buf = some (rp, w, .err e) := by
  simp [copyLoop, h1, hk]

/-- Helper: `MemReader.read` on a nonempty pending list. -/
theorem memReader_read_cons (b : Nat) (cs buf : List Nat) :
    MemReader.read (b :: cs) buf
      = ((b :: cs).drop (min buf.length (b :: cs).length),
         (b :: cs).take (min buf.length (b :: cs).length)
           ++ buf.drop (min buf.length (b :: cs).length),
         .ok (min buf.length (b :: cs).length)) := rfl

/-- Helper: driving the copy loop from a `MemReader` into a `MemWriter`
delivers every pending byte, in order, and ends in success, for any
positive buffer and enough fuel. -/
theorem copyLoop_mem (fuel : Nat) :
    ∀ (cs w buf : List Nat), cs.length < fuel → 1 ≤ buf.length →
      copyLoop MemReader MemWriter fuel cs w buf = some ([], w ++ cs, .ok ()) := by
  induction fuel with
  | zero => intro cs w buf hlen _; omega
  | succ f ih =>
    intro cs w buf hlen hbuf
    cases cs with
    | nil =>
      have h1 : MemReader.read [] buf = ([], buf, .err (standardError .EndOfFile)) := rfl
      rw [copyLoop_step_eof MemReader MemWriter f [] w buf [] buf
        (standardError .EndOfFile) h1 rfl]
      simp
    | cons b cs' =>
      have hminb : min buf.length (b :: cs').length ≤ buf.length :=
        Nat.min_le_left _ _
      have hminc : min buf.length (b :: cs').length ≤ (b :: cs').length :=
        Nat.min_le_right _ _
      have hmin1 : 1 ≤ min buf.length (b :: cs').length := by
        have hc : (b :: cs').length = cs'.length + 1 := by simp
        omega
      have htk : ((b :: cs').take (min buf.length (b :: cs').length)
            ++ buf.drop (min buf.length (b :: cs').length)).take
              (min buf.length (b :: cs').length)
          = (b :: cs').take (min buf.length (b :: cs').length) :=
        List.take_left' (List.length_take_of_le hminc)
      have h2 : MemWriter.write w
            (((b :: cs').take (min buf.length (b :: cs').length)
              ++ buf.drop (min buf.length (b :: cs').length)).take
                (min buf.length (b :: cs').length))
          = (w ++ (b :: cs').take (min buf.length (b :: cs').length), .ok ()) := by
        rw [htk]; rfl
      rw [copyLoop_step_wok MemReader MemWriter f (b :: cs') w buf _ _ _ _ ()
        (memReader_read_cons b cs' buf) h2]
      have hlen' : ((b :: cs').drop (min buf.length (b :: cs').length)).length < f := by
        simp only [List.length_drop]
        simp only [List.length_cons] at hlen ⊢
        omega
      have hbuf' : 1 ≤ ((b :: cs').take (min buf.length (b :: cs').length)
            ++ buf.drop (min buf.length (b :: cs').length)).length := by
        simp only [List.length_append, List.length_drop,
          List.length_take_of_le hminc]
        omega
      rw [ih _ _ _ hlen' hbuf']
      rw [List.append_assoc, List.take_append_drop]

/-- Claim C3: one iteration of `copy` stops with success on an
`EndOfFile` read failure, propagates any other read failure, writes
exactly the first `n` bytes of the buffer on a successful read of `n`
bytes — aborting with the write's error when the write fails and
continuing the loop (also for `n = 0`) when it succeeds — and, driven
over a Source yielding a byte sequence into a capturing Sink, delivers
exactly that sequence to the Sink and reports success. -/
theorem copy_stream_spec :
    (∀ {ρ ω : Type} (R : Reader ρ) (W : Writer ω) (fuel : Nat) (r : ρ)
        (w : ω) (buf : List Nat) (rp : ρ) (bufp : List Nat) (e : IoError),
      R.read r buf = (rp, bufp, .err e) → e.kind = .EndOfFile →
      copyLoop R W (fuel + 1) r w buf = some (rp, w, .ok ()))
  ∧ (∀ {ρ ω : Type} (R : Reader ρ) (W : Writer ω) (fuel : Nat) (r : ρ)
        (w : ω) (buf : List Nat) (rp : ρ) (bufp : List Nat) (e : IoError),
      R.read r buf = (rp, bufp, .err e) → e.kind ≠ .EndOfFile →
      copyLoop R W (fuel + 1) r w buf = some (rp, w, .err e))
  ∧ (∀ {ρ ω : Type} (R : Reader ρ) (W : Writer ω) (fuel : Nat) (r : ρ)
        (w : ω) (buf : List Nat) (rp : ρ) (bufp : List Nat) (n : Nat)
        (wp : ω) (e : IoError),
      R.read r buf = (rp, bufp, .ok n) →
      W.write w (bufp.take n) = (wp, .err e) →
      copyLoop R W (fuel + 1) r w buf = some (rp, wp, .err e))
  ∧ (∀ {ρ ω : Type} (R : Reader ρ) (W : Writer ω) (fuel : Nat) (r : ρ)
        (w : ω) (buf : List Nat) (rp : ρ) (bufp : List Nat) (n : Nat)
        (wp : ω) (u : Unit),
      R.read r buf = (rp, bufp, .ok n) →
      W.write w (bufp.take n) = (wp, .ok u) →
      copyLoop R W (fuel + 1) r w buf = copyLoop R W fuel rp wp bufp)
  ∧ (∀ (cs w : List Nat) (fuel k : Nat), cs.length < fuel → 1 ≤ k →
      copyLoop MemReader MemWriter fuel cs w (List.replicate k 0)
        = some ([], w ++ cs, .ok ()))
  ∧ (∀ (cs w : List Nat) (fuel : Nat), cs.length < fuel →
      copy MemReader MemWriter fuel cs w = some ([], w ++ cs, .ok ())) := by
  refine ⟨?_, ?_, ?_, ?_, ?_, ?_⟩
  · intro ρ ω R W fuel r w buf rp bufp e h1 hk
    exact copyLoop_step_eof R W fuel r w buf rp bufp e h1 hk
  · intro ρ ω R W fuel r w buf rp bufp e h1 hk
    exact copyLoop_step_err R W fuel r w buf rp bufp e h1 hk
  · intro ρ ω R W fuel r w buf rp bufp n wp e h1 h2
    exact copyLoop_step_werr R W fuel r w buf rp bufp n wp e h1 h2
  · intro ρ ω R W fuel r w buf rp bufp n wp u h1 h2
    exact copyLoop_step_wok R W fuel r w buf rp bufp n wp u h1 h2
  · intro cs w fuel k hlen hk
    exact copyLoop_mem fuel cs w (List.replicate k 0) hlen (by simpa using hk)
  · intro cs w fuel hlen
    exact copyLoop_mem fuel cs w (List.replicate DEFAULT_BUF_SIZE 0) hlen
      (by rw [List.length_replicate]; decide)

/-- Claim C3 witness: the spec's example copy of `[0,1,2,3,4]` into a
capturing Sink, plus a non-`EndOfFile` read failure aborting the copy. -/
theorem copy_stream_spec_witness :
    copyLoop MemReader MemWriter 6 [0, 1, 2, 3, 4] [] (List.replicate 2 0)
      = some ([], [0, 1, 2, 3, 4], .ok ())
  ∧ copyLoop ScriptReader MemWriter 1 [IoResult.err ⟨.otherKind 2, 0⟩] [] [0]
      = some ([], [], .err ⟨.otherKind 2, 0⟩) := by
  constructor
  · exact copy_stream_spec.2.2.2.2.1 [0, 1, 2, 3, 4] [] 6 2 (by decide) (by decide)
  · exact copy_stream_spec.2.1 ScriptReader MemWriter 0
      [IoResult.err ⟨.otherKind 2, 0⟩] [] [0] [] [0] ⟨.otherKind 2, 0⟩ rfl (by decide)

/-! Helper lemmas: `ChainedReader` over `MemReader` producers. -/

/-- Helper: a read on a nonempty current producer returns its next
bytes at once and does not advance. -/
theorem chained_mem_read_data (rs : List (List Nat)) (b : Nat) (c buf : List Nat) :
    ChainedReader.readLoop MemReader rs (some (b :: c)) buf
      = (⟨rs, some ((b :: c).drop (min buf.length (b :: c).length))⟩,
         (b :: c).take (min buf.length (b :: c).length)
           ++ buf.drop (min buf.length (b :: c).length),
         .ok (min buf.length (b :: c).length)) := by
  rw [ChainedReader.readLoop.eq_def]
  simp [memReader_read_cons]

/-- Helper: when the current producer and all pending producers are
exhausted, a read drains the iterator and fails with `EndOfFile`. -/
theorem chained_mem_nil :
    ∀ (rs : List (List Nat)) (c buf : List Nat), c ++ rs.flatten = [] →
      ChainedReader.readLoop MemReader rs (some c) buf
        = (⟨[], none⟩, buf, .err (standardError .EndOfFile)) := by
  intro rs
  induction rs with
  | nil =>
    intro c buf h
    have hc : c = [] := by simpa using h
    subst hc
    rw [ChainedReader.readLoop.eq_def]
    simp [MemReader, standardError]
  | cons c2 rest ih =>
    intro c buf h
    rw [List.flatten_cons] at h
    have hc : c = [] := (List.append_eq_nil.mp h).1
    have h2 : c2 ++ rest.flatten = [] := (List.append_eq_nil.mp h).2
    subst hc
    rw [ChainedReader.readLoop.eq_def]
    simp only [MemReader, List.isEmpty_nil, if_true, standardError]
    exact ih c2 buf h2

/-- Helper: a read on a `ChainedReader` of `MemReader`s with pending
bytes yields between `1` and `buf.length` bytes, which are exactly the
next pending bytes, advancing past exhausted producers within the same
call. -/
theorem chained_mem_read_pos :
    ∀ (rs : List (List Nat)) (c buf : List Nat),
      1 ≤ buf.length → c ++ rs.flatten ≠ [] →
      ∃ n rest' c',
        ChainedReader.readLoop MemReader rs (some c) buf
          = (⟨rest', some c'⟩, (c ++ rs.flatten).take n ++ buf.drop n, .ok n)
        ∧ 1 ≤ n ∧ n ≤ buf.length ∧ n ≤ (c ++ rs.flatten).length
        ∧ c' ++ rest'.flatten = (c ++ rs.flatten).drop n := by
  intro rs
  induction rs with
  | nil =>
    intro c buf hb hne
    cases c with
    | nil => simp at hne
    | cons b c2 =>
      refine ⟨min buf.length (b :: c2).length, [],
        (b :: c2).drop (min buf.length (b :: c2).length), ?_, ?_,
        Nat.min_le_left _ _, ?_, ?_⟩
      · rw [chained_mem_read_data]
        simp
      · have hc : (b :: c2).length = c2.length + 1 := by simp
        omega
      · simp only [List.flatten_nil, List.append_nil]
        exact Nat.min_le_right _ _
      · simp
  | cons h2 rest ih =>
    intro c buf hb hne
    cases c with
    | nil =>
      have hstep : ChainedReader.readLoop MemReader (h2 :: rest) (some []) buf
          = ChainedReader.readLoop MemReader rest (some h2) buf := by
        rw [ChainedReader.readLoop.eq_def]
        simp [MemReader, standardError]
      have hne2 : h2 ++ rest.flatten ≠ [] := by
        simpa [List.flatten_cons] using hne
      obtain ⟨n, rest', c', heq, hn1, hnb, hnl, hpend⟩ := ih h2 buf hb hne2
      refine ⟨n, rest', c', ?_, hn1, hnb, ?_, ?_⟩
      · rw [hstep]
        simp only [List.nil_append, List.flatten_cons]
        exact heq
      · simpa [List.flatten_cons] using hnl
      · simpa [List.flatten_cons] using hpend
    | cons b c2 =>
      refine ⟨min buf.length (b :: c2).length, h2 :: rest,
        (b :: c2).drop (min buf.length (b :: c2).length), ?_, ?_,
        Nat.min_le_left _ _, ?_, ?_⟩
      · rw [chained_mem_read_data]
        rw [List.take_append_of_le_length (Nat.min_le_right _ _)]
      · have hc : (b :: c2).length = c2.length + 1 := by simp
        omega
      · have hle := Nat.min_le_right buf.length (b :: c2).length
        simp only [List.length_append]
        omega
      · rw [List.drop_append_of_le_length (Nat.min_le_right _ _)]

/-- Helper: one-step unfolding of `readToEnd`. -/
theorem readToEnd_succ_eq (R : Reader σ) (fuel : Nat) (s : σ) (k : Nat)
    (acc : List Nat) :
    readToEnd R (fuel + 1) s k acc
      = match R.read s (List.replicate k 0) with
        | (sp, bufp, .ok n) => readToEnd R fuel sp k (acc ++ bufp.take n)
        | (_, _, .err e) => if e.kind = .EndOfFile then some acc else none := rfl

/-- Helper: reading a `ChainedReader` of `MemReader`s to the end
collects exactly the pending bytes, given a positive buffer size and
enough fuel. -/
theorem readToEnd_chained_mem (fuel : Nat) :
    ∀ (rs : List (List Nat)) (c : List Nat) (k : Nat) (acc : List Nat),
      1 ≤ k → (c ++ rs.flatten).length < fuel →
      readToEnd (ChainedReader.asReader MemReader) fuel ⟨rs, some c⟩ k acc
        = some (acc ++ (c ++ rs.flatten)) := by
  induction fuel with
  | zero => intro rs c k acc hk hlen; omega
  | succ f ih =>
    intro rs c k acc hk hlen
    rw [readToEnd_succ_eq]
    by_cases hne : c ++ rs.flatten = []
    · have hread : (ChainedReader.asReader MemReader).read ⟨rs, some c⟩
          (List.replicate k 0)
          = (⟨[], none⟩, List.replicate k 0, .err (standardError .EndOfFile)) := by
        show ChainedReader.read MemReader ⟨rs, some c⟩ _ = _
        rw [ChainedReader.read]
        exact chained_mem_nil rs c _ hne
      rw [hread]
      simp [standardError, hne]
    · obtain ⟨n, rest', c', heq, hn1, hnb, hnl, hpend⟩ :=
        chained_mem_read_pos rs c (List.replicate k 0) (by simpa using hk) hne
      have hread : (ChainedReader.asReader MemReader).read ⟨rs, some c⟩
          (List.replicate k 0)
          = (⟨rest', some c'⟩,
             (c ++ rs.flatten).take n ++ (List.replicate k 0).drop n, .ok n) := by
        show ChainedReader.read MemReader ⟨rs, some c⟩ _ = _
        rw [ChainedReader.read]
        exact heq
      rw [hread]
      show readToEnd (ChainedReader.asReader MemReader) f ⟨rest', some c'⟩ k
          (acc ++ ((c ++ rs.flatten).take n ++ (List.replicate k 0).drop n).take n)
        = some (acc ++ (c ++ rs.flatten))
      rw [List.take_left' (List.length_take_of_le hnl)]
      have hlen' : (c' ++ rest'.flatten).length < f := by
        rw [hpend]
        simp only [List.length_drop]
        omega
      rw [ih rest' c' k (acc ++ (c ++ rs.flatten).take n) hk hlen']
      rw [hpend, List.append_assoc, List.take_append_drop]

/-- Claim C4: a `ChainedReader` over producers holding the byte lists of
`css` yields exactly the concatenation of those lists in order and then
fails with `EndOfFile` (the driver `readToEnd` returns `some` exactly
when the final failure kind is `EndOfFile`); producers that are
immediately at end of stream contribute no output and no error, the
adapter advancing past them inside a single read call. -/
theorem chained_concat_spec (css : List (List Nat)) (k fuel : Nat)
    (hk : 1 ≤ k) (hfuel : css.flatten.length < fuel) :
    readToEnd (ChainedReader.asReader MemReader) fuel (ChainedReader.new css) k []
      = some css.flatten := by
  cases css with
  | nil =>
    cases fuel with
    | zero => simp at hfuel
    | succ f =>
      rw [readToEnd_succ_eq]
      have hread : (ChainedReader.asReader MemReader).read (ChainedReader.new [])
          (List.replicate k 0)
          = (⟨[], none⟩, List.replicate k 0, .err (standardError .EndOfFile)) := rfl
      rw [hread]
      simp [standardError]
  | cons c cs =>
    have h := readToEnd_chained_mem fuel cs c k [] hk
      (by simpa [List.flatten_cons] using hfuel)
    simpa [ChainedReader.new, List.flatten_cons] using h

/-- Claim C4 witness: the spec's example, producers `[0,1]`, `[]`,
`[2,3]` yielding exactly `0,1,2,3`. -/
theorem chained_concat_spec_witness :
    readToEnd (ChainedReader.asReader MemReader) 5
        (ChainedReader.new [[0, 1], [], [2, 3]]) 2 []
      = some [0, 1, 2, 3] :=
  chained_concat_spec [[0, 1], [], [2, 3]] 2 5 (by decide) (by decide)

